import Mathlib

/-! # futurism: in-memory port store, loader and lookup handler

A shallow embedding of `main.go`: the `Port` record, the `Database` store with
`Upsert` and `GetPort`, the `LoadPorts` loader and the `GET /ports/{id}` handler,
followed by the properties of the store, the loader and the handler.

Modelling conventions.

* A Go `map[string]Port` is a finite list of entries `(key, value)`. Indexing
  returns the first entry with the key, assignment replaces the value of the
  entry with the key or adds an entry when there is none. A Go map holds one
  value per key; this is the predicate `PortMap.UniqueKeys`, which every
  operation preserves.
* A `range` over a map visits its entries in an order the language leaves
  unspecified. The order of the list stands for the order of the visit, and
  the order-independence of the result is a theorem, not an assumption.
* A Go slice is `Option (List _)`: `none` is the nil slice. A `float64` is its
  IEEE-754 bit pattern; the program only copies these values.
* `os.Open`, the JSON decoder, the JSON encoder, the content-type detection of
  `net/http` and the router are library code. They are parameters of the
  definitions that call them.
* `sync.RWMutex` is not part of the state: in a sequential execution every
  `Lock`/`RLock` is taken on a free mutex and released by the deferred
  `Unlock`/`RUnlock` before the method returns.
-/

namespace Futurism

/-! ## Data model -/

/-- The bit pattern of a Go `float64`. -/
abbrev Float64 := Nat

/-- The `Port` struct: one port record. -/
structure Port where
  Name : String
  City : String
  Country : String
  Alias : Option (List String)
  Regions : Option (List String)
  Coordinates : Option (List Float64)
  Province : String
  Timezone : String
  Unlocs : Option (List String)
  Code : String
deriving DecidableEq, Repr

/-- The zero value of `Port`: empty strings and nil slices. -/
def Port.zero : Port :=
  { Name := "", City := "", Country := "", Alias := none, Regions := none,
    Coordinates := none, Province := "", Timezone := "", Unlocs := none, Code := "" }

/-- A Go `map[string]Port`, as the list of its entries. -/
abbrev PortMap := List (String × Port)

/-- The keys of a map, one per entry. -/
def PortMap.keys (m : PortMap) : List String := m.map Prod.fst

/-- A map holds at most one entry per key. -/
def PortMap.UniqueKeys (m : PortMap) : Prop := m.keys.Nodup

instance PortMap.decidableUniqueKeys (m : PortMap) : Decidable m.UniqueKeys :=
  inferInstanceAs (Decidable m.keys.Nodup)

/-- The index expression `port, exists := m[key]`: the stored value and `true`,
or the zero value and `false` when the key is absent. -/
def PortMap.index : PortMap → String → Port × Bool
  | [], _ => (Port.zero, false)
  | (k, p) :: rest, key => if k = key then (p, true) else PortMap.index rest key

/-- The assignment `m[key] = port`: replaces the value stored under `key`, or
adds the entry when the key is absent. -/
def PortMap.assign : PortMap → String → Port → PortMap
  | [], key, port => [(key, port)]
  | (k, p) :: rest, key, port =>
      if k = key then (key, port) :: rest else (k, p) :: PortMap.assign rest key port

/-- The `Database` struct: the in-memory store for ports. -/
structure Database where
  ports : PortMap
deriving DecidableEq, Repr

/-- The function `NewDatabase`: a database over `make(map[string]Port)`. -/
def NewDatabase : Database := { ports := [] }

/-- The method `Database.Upsert`: `db.ports[key] = port`. It returns nothing and has no
failure branch; the result is the database after the call. -/
def Database.Upsert (db : Database) (key : String) (port : Port) : Database :=
  { db with ports := db.ports.assign key port }

/-- The method `Database.GetPort`: `port, exists := db.ports[key]; return port, exists`. -/
def Database.GetPort (db : Database) (key : String) : Port × Bool :=
  db.ports.index key

/-! ## Loader -/

/-- A Go `error` value, by its message. -/
abbrev GoError := String

/-- An open file, by its content. -/
abbrev File := String

/-- The library calls `LoadPorts` makes.

* `osOpen filename` is `os.Open(filename)`: the file or the error.
* `jsonDecode file` is `json.NewDecoder(file).Decode(&data)` on `var data
  map[string]Port`: the value of `data` after the call and the error returned
  (`none` for nil). The decoder may have filled `data` in part when it returns
  an error. -/
structure Env where
  osOpen : String → Except GoError File
  jsonDecode : File → PortMap × Option GoError

/-- The loop `for key, port := range data { db.Upsert(key, port) }`, visiting the
entries in the order of the list. -/
def upsertAll (db : Database) (data : PortMap) : Database :=
  data.foldl (fun d kv => d.Upsert kv.1 kv.2) db

/-- The function `LoadPorts`: the database after the call and the error returned (`none` for
nil). -/
def LoadPorts (env : Env) (db : Database) (filename : String) : Database × Option GoError :=
  match env.osOpen filename with
  | .error err => (db, some err)
  | .ok file =>
    match env.jsonDecode file with
    | (_, some err) => (db, some err)
    | (data, none) => (upsertAll db data, none)

/-! ## Handler -/

/-- The state of an `http.ResponseWriter`: the header map, the status code once
the header has been written, and the body written so far. -/
structure ResponseWriter where
  header : List (String × String)
  code : Option Nat
  body : String
deriving DecidableEq, Repr

/-- The writer a handler receives. -/
def ResponseWriter.fresh : ResponseWriter := { header := [], code := none, body := "" }

/-- The call `Header().Set(name, value)`. -/
def ResponseWriter.setHeader (w : ResponseWriter) (name value : String) : ResponseWriter :=
  { w with header := (name, value) :: w.header.filter (fun h => h.1 ≠ name) }

/-- The call `Header().Del(name)`. -/
def ResponseWriter.delHeader (w : ResponseWriter) (name : String) : ResponseWriter :=
  { w with header := w.header.filter (fun h => h.1 ≠ name) }

/-- The call `Header().Get(name)`. -/
def ResponseWriter.getHeader (w : ResponseWriter) (name : String) : Option String :=
  (w.header.find? (fun h => h.1 = name)).map Prod.snd

/-- The call `WriteHeader(code)`: the first call fixes the status. -/
def ResponseWriter.writeHeader (w : ResponseWriter) (code : Nat) : ResponseWriter :=
  match w.code with
  | none => { w with code := some code }
  | some _ => w

/-- The call `Write(data)`: writes the header with `http.StatusOK` when it has not been
written, then the data. With the first data of the body, when the handler has set
no `Content-Type`, the server sets it to `http.DetectContentType(data)`, which is
the parameter `detect`. The status codes this program writes all allow a body. -/
def ResponseWriter.write (detect : String → String) (w : ResponseWriter) (data : String) :
    ResponseWriter :=
  let w1 := w.writeHeader 200
  let w2 :=
    if w1.body = "" ∧ data ≠ "" ∧ w1.getHeader "Content-Type" = none then
      w1.setHeader "Content-Type" (detect data)
    else w1
  { w2 with body := w2.body ++ data }

/-- The status the client receives: the code written, or `http.StatusOK` when
the handler returned without writing. -/
def ResponseWriter.status (w : ResponseWriter) : Nat := w.code.getD 200

/-- The constant `http.StatusNotFound`. -/
def StatusNotFound : Nat := 404

/-- The function `http.Error(w, error, code)`: it sets the headers of a plain-text
error, writes the status and then the message and a newline. -/
def httpError (detect : String → String) (w : ResponseWriter) (error : String) (code : Nat) :
    ResponseWriter :=
  let w1 := w.delHeader "Content-Length"
  let w2 := w1.setHeader "Content-Type" "text/plain; charset=utf-8"
  let w3 := w2.setHeader "X-Content-Type-Options" "nosniff"
  let w4 := w3.writeHeader code
  w4.write detect (error ++ "\n")

/-- The call `json.NewEncoder(w).Encode(port)` for the JSON encoder `marshal`: on
success the encoding and a newline are written, on failure nothing is. The
handler discards the error. -/
def jsonEncode (marshal : Port → Except GoError String) (detect : String → String)
    (w : ResponseWriter) (port : Port) : ResponseWriter :=
  match marshal port with
  | .ok s => w.write detect (s ++ "\n")
  | .error _ => w

/-- The handler returned by `getPortHandler(db)`, run on a request whose route
variable `id` is `key`: the database and the response after the call. -/
def getPortHandler (marshal : Port → Except GoError String) (detect : String → String)
    (db : Database) (key : String) : Database × ResponseWriter :=
  match db.GetPort key with
  | (port, true) => (db, jsonEncode marshal detect ResponseWriter.fresh port)
  | (_, false) => (db, httpError detect ResponseWriter.fresh "Port not found" StatusNotFound)

/-! ## Sample inputs -/

/-- The record of the source
`{"AEAJM": {"name":"Ajman","city":"Ajman","country":"United Arab Emirates",
"coordinates":[55.5136433,25.4052165]}}`; the fields the source leaves out keep
their zero value. -/
def ajman : Port :=
  { Name := "Ajman", City := "Ajman", Country := "United Arab Emirates", Alias := none,
    Regions := none, Coordinates := some [4633009668036994974, 4627844150404795570],
    Province := "", Timezone := "", Unlocs := none, Code := "" }

/-- A second record, with every field set. -/
def abuDhabi : Port :=
  { Name := "Abu Dhabi", City := "Abu Dhabi", Country := "United Arab Emirates",
    Alias := some [], Regions := some [],
    Coordinates := some [4632913737107242025, 4627449593310940201],
    Province := "Abu Dhabi", Timezone := "Asia/Dubai", Unlocs := some ["AEAUH"],
    Code := "52001" }

/-- The map decoded from the sample source. -/
def sampleData : PortMap := [("AEAJM", ajman)]

/-- A map with two entries. -/
def twoPorts : PortMap := [("AEAJM", ajman), ("AEAUH", abuDhabi)]

/-- The same entries as `twoPorts`, visited in the other order. -/
def twoPortsRev : PortMap := [("AEAUH", abuDhabi), ("AEAJM", ajman)]

/-- An environment with three files: `ports.json` decodes to `sampleData`,
`two.json` decodes to `twoPorts`, and `broken.json` holds
`{"AEAJM": {"name":"Ajman", ...}, "AEAUH": 5}`, on which the decoder fills both
keys and returns a type error. Every other file name fails to open, every other
content fails to decode. -/
def sampleEnv : Env where
  osOpen := fun filename =>
    if filename = "ports.json" then .ok "sample"
    else if filename = "two.json" then .ok "two"
    else if filename = "broken.json" then .ok "broken"
    else .error ("open " ++ filename ++ ": no such file or directory")
  jsonDecode := fun file =>
    if file = "sample" then (sampleData, none)
    else if file = "two" then (twoPorts, none)
    else if file = "broken" then
      ([("AEAJM", ajman), ("AEAUH", Port.zero)],
        some "json: cannot unmarshal number into Go value of type main.Port")
    else ([], some "unexpected end of JSON input")

/-- A stand-in for `json.Marshal` that renders the name of the record only. -/
def nameOnly (p : Port) : Except GoError String :=
  .ok ("\x7b\"name\":\"" ++ p.Name ++ "\"\x7d")

/-- A stand-in for `http.DetectContentType` on text. -/
def detectText (_ : String) : String := "text/plain; charset=utf-8"

/-- Whether a `float64` is neither NaN nor infinite: its exponent bits are not
all ones. -/
def Float64.isFinite (x : Float64) : Bool := decide ((x / 2 ^ 52) % 2048 ≠ 2047)

/-- A stand-in for `json.Marshal` that, like it, returns an unsupported-value
error for a record with a NaN or infinite coordinate, and renders the name of
every other record. -/
def finiteOnly (p : Port) : Except GoError String :=
  if (p.Coordinates.getD []).all Float64.isFinite then nameOnly p
  else .error "json: unsupported value: NaN"

/-- A record with a NaN coordinate, the bit pattern of `math.NaN()`. -/
def nanPort : Port :=
  { Name := "Nowhere", City := "", Country := "", Alias := none, Regions := none,
    Coordinates := some [9221120237041090561], Province := "", Timezone := "",
    Unlocs := none, Code := "" }

/-- A store that holds `nanPort`. -/
def nanDb : Database := NewDatabase.Upsert "XXNAN" nanPort

/-- The database of `main` after loading `ports.json`. -/
def sampleDb : Database := (LoadPorts sampleEnv NewDatabase "ports.json").1

/-! ## The map operations -/

theorem index_assign_same (m : PortMap) (k : String) (p : Port) :
    (m.assign k p).index k = (p, true) := by
  induction m with
  | nil => simp [PortMap.assign, PortMap.index]
  | cons e rest ih =>
    obtain ⟨k0, p0⟩ := e
    by_cases h : k0 = k
    · simp [PortMap.assign, PortMap.index, h]
    · simp [PortMap.assign, PortMap.index, h, ih]

theorem index_assign_other (m : PortMap) (k k2 : String) (p : Port) (hne : k ≠ k2) :
    (m.assign k p).index k2 = m.index k2 := by
  induction m with
  | nil => simp [PortMap.assign, PortMap.index, hne]
  | cons e rest ih =>
    obtain ⟨k0, p0⟩ := e
    by_cases h : k0 = k
    · subst h
      simp [PortMap.assign, PortMap.index, hne]
    · by_cases h2 : k0 = k2
      · subst h2
        simp [PortMap.assign, PortMap.index, h]
      · simp [PortMap.assign, PortMap.index, h, h2, ih]

theorem assign_assign_same (m : PortMap) (k : String) (p1 p2 : Port) :
    (m.assign k p1).assign k p2 = m.assign k p2 := by
  induction m with
  | nil => simp [PortMap.assign]
  | cons e rest ih =>
    obtain ⟨k0, p0⟩ := e
    by_cases h : k0 = k
    · simp [PortMap.assign, h]
    · simp [PortMap.assign, h, ih]

theorem keys_assign_of_mem (m : PortMap) (k : String) (p : Port) (hk : k ∈ m.keys) :
    (m.assign k p).keys = m.keys := by
  induction m with
  | nil => simp [PortMap.keys] at hk
  | cons e rest ih =>
    obtain ⟨k0, p0⟩ := e
    by_cases h : k0 = k
    · simp [PortMap.assign, PortMap.keys, h]
    · have hk2 : k ∈ PortMap.keys rest := by
        simp only [PortMap.keys, List.map_cons, List.mem_cons] at hk
        rcases hk with hk | hk
        · exact absurd hk.symm h
        · exact hk
      have := ih hk2
      simp only [PortMap.keys] at this
      simp [PortMap.assign, PortMap.keys, h, this]

theorem keys_assign_of_not_mem (m : PortMap) (k : String) (p : Port) (hk : k ∉ m.keys) :
    (m.assign k p).keys = m.keys ++ [k] := by
  induction m with
  | nil => simp [PortMap.assign, PortMap.keys]
  | cons e rest ih =>
    obtain ⟨k0, p0⟩ := e
    simp only [PortMap.keys, List.map_cons, List.mem_cons, not_or] at hk
    have h : ¬ k0 = k := fun h => hk.1 h.symm
    have := ih hk.2
    simp only [PortMap.keys] at this
    simp [PortMap.assign, PortMap.keys, h, this]

theorem mem_keys_assign (m : PortMap) (k : String) (p : Port) : k ∈ (m.assign k p).keys := by
  by_cases hk : k ∈ m.keys
  · rw [keys_assign_of_mem m k p hk]; exact hk
  · rw [keys_assign_of_not_mem m k p hk]; simp

theorem uniqueKeys_assign (m : PortMap) (k : String) (p : Port) (hm : m.UniqueKeys) :
    (m.assign k p).UniqueKeys := by
  unfold PortMap.UniqueKeys at *
  by_cases hk : k ∈ m.keys
  · rw [keys_assign_of_mem m k p hk]; exact hm
  · rw [keys_assign_of_not_mem m k p hk]
    exact List.Nodup.append hm (List.nodup_singleton k) (by simpa using hk)

theorem length_assign_of_mem (m : PortMap) (k : String) (p : Port) (hk : k ∈ m.keys) :
    (m.assign k p).length = m.length := by
  have := congrArg List.length (keys_assign_of_mem m k p hk)
  simpa [PortMap.keys] using this

theorem index_found_iff (m : PortMap) (k : String) : (m.index k).2 = true ↔ k ∈ m.keys := by
  induction m with
  | nil => simp [PortMap.index, PortMap.keys]
  | cons e rest ih =>
    obtain ⟨k0, p0⟩ := e
    by_cases h : k0 = k
    · simp [PortMap.index, PortMap.keys, h]
    · have h2 : ¬ k = k0 := fun h2 => h h2.symm
      simp only [PortMap.keys] at ih
      simp [PortMap.index, PortMap.keys, h, h2, ih]

theorem index_of_not_mem (m : PortMap) (k : String) (hk : k ∉ m.keys) :
    m.index k = (Port.zero, false) := by
  induction m with
  | nil => simp [PortMap.index]
  | cons e rest ih =>
    obtain ⟨k0, p0⟩ := e
    simp only [PortMap.keys, List.map_cons, List.mem_cons, not_or] at hk
    have h : ¬ k0 = k := fun h => hk.1 h.symm
    have := ih hk.2
    simp [PortMap.index, h, this]

theorem mem_of_index (m : PortMap) (k : String) (hk : (m.index k).2 = true) :
    (k, (m.index k).1) ∈ m := by
  induction m with
  | nil => simp [PortMap.index] at hk
  | cons e rest ih =>
    obtain ⟨k0, p0⟩ := e
    by_cases h : k0 = k
    · simp [PortMap.index, h]
    · simp only [PortMap.index, h, if_false] at hk ⊢
      exact List.mem_cons_of_mem _ (ih hk)

/-! ## The store operations and the loading loop -/

theorem getPort_upsert_same (db : Database) (k : String) (r : Port) :
    (db.Upsert k r).GetPort k = (r, true) :=
  index_assign_same db.ports k r

theorem getPort_upsert_other (db : Database) (k k2 : String) (r : Port) (hne : k ≠ k2) :
    (db.Upsert k r).GetPort k2 = db.GetPort k2 :=
  index_assign_other db.ports k k2 r hne

theorem found_upsert (db : Database) (k k2 : String) (r : Port)
    (h : (db.GetPort k2).2 = true) : ((db.Upsert k r).GetPort k2).2 = true := by
  by_cases hk : k = k2
  · subst hk; rw [getPort_upsert_same]
  · rw [getPort_upsert_other db k k2 r hk]; exact h

theorem upsertAll_cons (db : Database) (k : String) (p : Port) (rest : PortMap) :
    upsertAll db ((k, p) :: rest) = upsertAll (db.Upsert k p) rest := rfl

theorem getPort_upsertAll_of_not_mem (data : PortMap) (db : Database) (k : String)
    (hk : k ∉ data.keys) : (upsertAll db data).GetPort k = db.GetPort k := by
  induction data generalizing db with
  | nil => rfl
  | cons e rest ih =>
    obtain ⟨k0, p0⟩ := e
    simp only [PortMap.keys, List.map_cons, List.mem_cons, not_or] at hk
    rw [upsertAll_cons, ih (db.Upsert k0 p0) hk.2]
    exact getPort_upsert_other db k0 k p0 (fun h => hk.1 h.symm)

theorem getPort_upsertAll_of_mem (data : PortMap) (db : Database) (k : String) (p : Port)
    (hu : data.UniqueKeys) (hm : (k, p) ∈ data) : (upsertAll db data).GetPort k = (p, true) := by
  induction data generalizing db with
  | nil => simp at hm
  | cons e rest ih =>
    obtain ⟨k0, p0⟩ := e
    have hu2 : (k0 ∉ PortMap.keys rest) ∧ PortMap.UniqueKeys rest := by
      simpa [PortMap.UniqueKeys, PortMap.keys] using hu
    rw [upsertAll_cons]
    rcases List.mem_cons.mp hm with heq | hin
    · have hk : k = k0 := congrArg Prod.fst heq
      have hp : p = p0 := congrArg Prod.snd heq
      subst hk; subst hp
      rw [getPort_upsertAll_of_not_mem rest _ k hu2.1]
      exact getPort_upsert_same db k p
    · exact ih (db.Upsert k0 p0) hu2.2 hin

theorem found_upsertAll (data : PortMap) (db : Database) (k : String)
    (h : (db.GetPort k).2 = true) : ((upsertAll db data).GetPort k).2 = true := by
  induction data generalizing db with
  | nil => exact h
  | cons e rest ih =>
    obtain ⟨k0, p0⟩ := e
    rw [upsertAll_cons]
    exact ih (db.Upsert k0 p0) (found_upsert db k0 k p0 h)

theorem getPort_upsertAll_perm (d1 d2 : PortMap) (db : Database) (k : String)
    (hu : d1.UniqueKeys) (hp : d1.Perm d2) :
    (upsertAll db d1).GetPort k = (upsertAll db d2).GetPort k := by
  have hkeys : d1.keys.Perm d2.keys := hp.map Prod.fst
  have hu2 : d2.UniqueKeys := (List.Perm.nodup_iff hkeys).mp hu
  by_cases hk : k ∈ d1.keys
  · have hf := (index_found_iff d1 k).mpr hk
    have hm := mem_of_index d1 k hf
    rw [getPort_upsertAll_of_mem d1 db k _ hu hm,
      getPort_upsertAll_of_mem d2 db k _ hu2 (hp.subset hm)]
  · have hk2 : k ∉ d2.keys := fun h => hk (hkeys.symm.subset h)
    rw [getPort_upsertAll_of_not_mem d1 db k hk, getPort_upsertAll_of_not_mem d2 db k hk2]

theorem loadPorts_of_decoded (env : Env) (db : Database) (filename : String) (file : File)
    (data : PortMap) (ho : env.osOpen filename = .ok file)
    (hd : env.jsonDecode file = (data, none)) :
    LoadPorts env db filename = (upsertAll db data, none) := by
  simp [LoadPorts, ho, hd]

theorem loadPorts_of_open_error (env : Env) (db : Database) (filename : String) (err : GoError)
    (ho : env.osOpen filename = .error err) : LoadPorts env db filename = (db, some err) := by
  simp [LoadPorts, ho]

theorem loadPorts_of_decode_error (env : Env) (db : Database) (filename : String) (file : File)
    (data : PortMap) (err : GoError) (ho : env.osOpen filename = .ok file)
    (hd : env.jsonDecode file = (data, some err)) :
    LoadPorts env db filename = (db, some err) := by
  simp [LoadPorts, ho, hd]

theorem found_upsertAll_of_mem_keys (data : PortMap) (db : Database) (k : String)
    (hk : k ∈ data.keys) : ((upsertAll db data).GetPort k).2 = true := by
  induction data generalizing db with
  | nil => simp [PortMap.keys] at hk
  | cons e rest ih =>
    obtain ⟨k0, p0⟩ := e
    rw [upsertAll_cons]
    simp only [PortMap.keys, List.map_cons, List.mem_cons] at hk
    rcases hk with hk | hk
    · subst hk
      apply found_upsertAll
      rw [getPort_upsert_same]
    · exact ih (db.Upsert k0 p0) hk

theorem loadPorts_store_cases (env : Env) (db : Database) (filename : String) :
    (LoadPorts env db filename).1 = db ∨
      ∃ data, (LoadPorts env db filename).1 = upsertAll db data := by
  unfold LoadPorts
  cases env.osOpen filename with
  | error err => exact Or.inl rfl
  | ok file =>
    rcases hd : env.jsonDecode file with ⟨data, _ | err⟩
    · exact Or.inr ⟨data, by simp [hd]⟩
    · exact Or.inl (by simp [hd])

theorem loadPorts_error_or_decoded (env : Env) (db : Database) (filename : String) :
    (∃ err, LoadPorts env db filename = (db, some err)) ∨
      ∃ file data, env.osOpen filename = .ok file ∧ env.jsonDecode file = (data, none) ∧
        LoadPorts env db filename = (upsertAll db data, none) := by
  unfold LoadPorts
  cases env.osOpen filename with
  | error err => exact Or.inl ⟨err, rfl⟩
  | ok file =>
    rcases hd : env.jsonDecode file with ⟨data, _ | err⟩
    · exact Or.inr ⟨file, data, rfl, hd, by simp [hd]⟩
    · exact Or.inl ⟨err, by simp [hd]⟩

theorem length_le_assign (m : PortMap) (k : String) (p : Port) :
    m.length ≤ (m.assign k p).length := by
  by_cases hk : k ∈ m.keys
  · exact le_of_eq (length_assign_of_mem m k p hk).symm
  · have := congrArg List.length (keys_assign_of_not_mem m k p hk)
    simp only [PortMap.keys, List.length_map, List.length_append, List.length_singleton] at this
    omega

theorem length_le_upsertAll (data : PortMap) (db : Database) :
    db.ports.length ≤ (upsertAll db data).ports.length := by
  induction data generalizing db with
  | nil => exact le_refl _
  | cons e rest ih =>
    obtain ⟨k0, p0⟩ := e
    rw [upsertAll_cons]
    exact le_trans (length_le_assign db.ports k0 p0) (ih (db.Upsert k0 p0))

theorem getPortHandler_of_found (marshal : Port → Except GoError String)
    (detect : String → String) (db : Database) (key : String) (port : Port)
    (hg : db.GetPort key = (port, true)) :
    getPortHandler marshal detect db key
      = (db, jsonEncode marshal detect ResponseWriter.fresh port) := by
  simp [getPortHandler, hg]

theorem getPortHandler_of_absent (marshal : Port → Except GoError String)
    (detect : String → String) (db : Database) (key : String) (port : Port)
    (hg : db.GetPort key = (port, false)) :
    getPortHandler marshal detect db key
      = (db, httpError detect ResponseWriter.fresh "Port not found" StatusNotFound) := by
  simp [getPortHandler, hg]

theorem append_newline_ne_empty (s : String) : s ++ "\n" ≠ "" := by
  intro h
  have hl := congrArg String.length h
  rw [String.length_append] at hl
  have h1 : "\n".length = 1 := rfl
  have h0 : "".length = 0 := rfl
  omega

theorem write_fresh (detect : String → String) (data : String) (hd : data ≠ "") :
    ResponseWriter.fresh.write detect data
      = { header := [("Content-Type", detect data)], code := some 200, body := data } := by
  simp [ResponseWriter.write, ResponseWriter.writeHeader, ResponseWriter.fresh,
    ResponseWriter.getHeader, ResponseWriter.setHeader, hd]

theorem status_jsonEncode (marshal : Port → Except GoError String) (detect : String → String)
    (port : Port) : (jsonEncode marshal detect ResponseWriter.fresh port).status = 200 := by
  unfold jsonEncode
  cases marshal port with
  | error err => rfl
  | ok s => simp only [write_fresh detect _ (append_newline_ne_empty s)]; rfl

theorem body_jsonEncode (marshal : Port → Except GoError String) (detect : String → String)
    (port : Port) (s : String) (hs : marshal port = .ok s) :
    (jsonEncode marshal detect ResponseWriter.fresh port).body = s ++ "\n" ∧
      (jsonEncode marshal detect ResponseWriter.fresh port).getHeader "Content-Type"
        = some (detect (s ++ "\n")) := by
  simp [jsonEncode, hs, write_fresh detect _ (append_newline_ne_empty s),
    ResponseWriter.getHeader]

theorem notFound_response (detect : String → String) :
    httpError detect ResponseWriter.fresh "Port not found" StatusNotFound
      = { header := [("X-Content-Type-Options", "nosniff"),
            ("Content-Type", "text/plain; charset=utf-8")],
          code := some 404, body := "Port not found\n" } := by
  simp [httpError, ResponseWriter.write, ResponseWriter.writeHeader, ResponseWriter.fresh,
    ResponseWriter.getHeader, ResponseWriter.setHeader, ResponseWriter.delHeader,
    StatusNotFound]

/-! ## Loading and lookup -/

/-- C1: when `LoadPorts` succeeds, that is the file opens and its body decodes
without error to the map `data`, the call returns nil and, for every key `k`
present in `data`, `GetPort k` on the resulting store returns `(data[k], true)`:
the record decoded for `k`, whatever the store held before. -/
theorem loadPorts_getPort_present (env : Env) (db : Database) (filename : String)
    (file : File) (data : PortMap) (ho : env.osOpen filename = .ok file)
    (hd : env.jsonDecode file = (data, none)) (hu : data.UniqueKeys) (k : String)
    (hk : (data.index k).2 = true) :
    (LoadPorts env db filename).2 = none ∧
      (LoadPorts env db filename).1.GetPort k = ((data.index k).1, true) ∧
      ∀ p, (k, p) ∈ data → (LoadPorts env db filename).1.GetPort k = (p, true) := by
  rw [loadPorts_of_decoded env db filename file data ho hd]
  refine ⟨rfl, ?_, ?_⟩
  · exact getPort_upsertAll_of_mem data db k _ hu (mem_of_index data k hk)
  · intro p hp
    exact getPort_upsertAll_of_mem data db k p hu hp

theorem loadPorts_getPort_present_witness :
    sampleEnv.osOpen "two.json" = .ok "two" ∧ sampleEnv.jsonDecode "two" = (twoPorts, none) ∧
      twoPorts.UniqueKeys ∧ (twoPorts.index "AEAUH").2 = true ∧
      (LoadPorts sampleEnv sampleDb "two.json").2 = none ∧
      (LoadPorts sampleEnv sampleDb "two.json").1.GetPort "AEAUH" = (abuDhabi, true) :=
  have h := loadPorts_getPort_present sampleEnv sampleDb "two.json" "two" twoPorts rfl rfl
    (by decide) "AEAUH" (by decide)
  ⟨rfl, rfl, by decide, by decide, h.1, h.2.1⟩

/-- C2: on a store created by `NewDatabase`, `GetPort` returns the zero `Port`
and `false` for every key; after one successful `LoadPorts` of the decoded map
`data` on such a store, `GetPort k` still returns the zero `Port` and `false`
for every `k` that is not a key of `data`. -/
theorem loadPorts_getPort_absent (env : Env) (filename : String) (file : File)
    (data : PortMap) (ho : env.osOpen filename = .ok file)
    (hd : env.jsonDecode file = (data, none)) (k : String) :
    NewDatabase.GetPort k = (Port.zero, false) ∧
      (k ∉ data.keys →
        (LoadPorts env NewDatabase filename).1.GetPort k = (Port.zero, false)) := by
  refine ⟨rfl, fun hk => ?_⟩
  rw [loadPorts_of_decoded env NewDatabase filename file data ho hd,
    getPort_upsertAll_of_not_mem data NewDatabase k hk]
  rfl

theorem loadPorts_getPort_absent_witness :
    sampleEnv.osOpen "ports.json" = .ok "sample" ∧
      sampleEnv.jsonDecode "sample" = (sampleData, none) ∧ "UNKNOWN" ∉ sampleData.keys ∧
      (LoadPorts sampleEnv NewDatabase "ports.json").1.GetPort "UNKNOWN" = (Port.zero, false) :=
  ⟨rfl, rfl, by decide,
    (loadPorts_getPort_absent sampleEnv "ports.json" "sample" sampleData rfl rfl "UNKNOWN").2
      (by decide)⟩

/-- C3: for every store, key `k` and record `r`, `GetPort k` after `Upsert k r`
returns `(r, true)`, whether or not the key was present before. `Upsert` is a
total function of the store: it has no failure branch. -/
theorem upsert_then_getPort (db : Database) (k : String) (r : Port) :
    (db.Upsert k r).GetPort k = (r, true) :=
  getPort_upsert_same db k r

/-- C4: `Upsert k r1` followed by `Upsert k r2` leaves `GetPort k = (r2, true)`,
the whole of `r2`; the store is the one `Upsert k r2` alone produces and has as
many entries as after the first `Upsert`; and when the store held one value per
key before, it still does, with exactly one entry for `k`. -/
theorem upsert_upsert_overwrites (db : Database) (k : String) (r1 r2 : Port) :
    ((db.Upsert k r1).Upsert k r2).GetPort k = (r2, true) ∧
      (db.Upsert k r1).Upsert k r2 = db.Upsert k r2 ∧
      ((db.Upsert k r1).Upsert k r2).ports.length = (db.Upsert k r1).ports.length ∧
      (db.ports.UniqueKeys →
        ((db.Upsert k r1).Upsert k r2).ports.UniqueKeys ∧
          ((db.Upsert k r1).Upsert k r2).ports.keys.count k = 1) := by
  have heq : (db.Upsert k r1).Upsert k r2 = db.Upsert k r2 := by
    simp [Database.Upsert, assign_assign_same]
  refine ⟨getPort_upsert_same _ k r2, heq, ?_, fun hu => ?_⟩
  · exact length_assign_of_mem (db.ports.assign k r1) k r2 (mem_keys_assign db.ports k r1)
  · rw [heq]
    have hu2 : (db.Upsert k r2).ports.UniqueKeys := uniqueKeys_assign db.ports k r2 hu
    exact ⟨hu2, List.count_eq_one_of_mem hu2 (mem_keys_assign db.ports k r2)⟩

theorem upsert_upsert_overwrites_witness :
    sampleDb.ports.UniqueKeys ∧
      ((sampleDb.Upsert "AEAJM" abuDhabi).Upsert "AEAJM" Port.zero).GetPort "AEAJM"
        = (Port.zero, true) ∧
      ((sampleDb.Upsert "AEAJM" abuDhabi).Upsert "AEAJM" Port.zero).ports.keys.count "AEAJM"
        = 1 :=
  have h := upsert_upsert_overwrites sampleDb "AEAJM" abuDhabi Port.zero
  ⟨by decide, h.1, (h.2.2.2 (by decide)).2⟩

/-! ## Failure of the load -/

/-- C5: `LoadPorts` is all-or-nothing. When the file cannot be opened, or when
decoding its body fails, the call returns that error and the store it leaves is
the store it was given, for every store, the empty one included: no `Upsert` has
run, and `GetPort` answers as before for every key. It returns nil only when the
file opened and its body decoded to a map `data`, and then every entry of `data`
has been upserted: every key of `data` is found, with the record decoded for it,
and every other key is as before. -/
theorem loadPorts_all_or_nothing (env : Env) (db : Database) (filename : String) :
    (∀ err, env.osOpen filename = .error err →
        LoadPorts env db filename = (db, some err)) ∧
      (∀ file data err, env.osOpen filename = .ok file →
        env.jsonDecode file = (data, some err) →
        LoadPorts env db filename = (db, some err)) ∧
      ((LoadPorts env db filename).2 ≠ none →
        (LoadPorts env db filename).1 = db ∧
          ∀ k, (LoadPorts env db filename).1.GetPort k = db.GetPort k) ∧
      ((LoadPorts env db filename).2 = none →
        ∃ file data, env.osOpen filename = .ok file ∧ env.jsonDecode file = (data, none) ∧
          (∀ k, k ∈ data.keys → ((LoadPorts env db filename).1.GetPort k).2 = true) ∧
          (data.UniqueKeys → ∀ k p, (k, p) ∈ data →
            (LoadPorts env db filename).1.GetPort k = (p, true)) ∧
          (∀ k, k ∉ data.keys → (LoadPorts env db filename).1.GetPort k = db.GetPort k)) := by
  refine ⟨fun err ho => loadPorts_of_open_error env db filename err ho,
    fun file data err ho hd => loadPorts_of_decode_error env db filename file data err ho hd,
    ?_, ?_⟩
  · intro hne
    rcases loadPorts_error_or_decoded env db filename with ⟨err, he⟩ | ⟨file, data, _, _, he⟩
    · rw [he]
      exact ⟨rfl, fun _ => rfl⟩
    · rw [he] at hne
      exact absurd rfl hne
  · intro hnil
    rcases loadPorts_error_or_decoded env db filename with ⟨err, he⟩ | ⟨file, data, ho, hd, he⟩
    · rw [he] at hnil
      simp at hnil
    · rw [he]
      exact ⟨file, data, ho, hd,
        fun k hk => found_upsertAll_of_mem_keys data db k hk,
        fun hu k p hm => getPort_upsertAll_of_mem data db k p hu hm,
        fun k hk => getPort_upsertAll_of_not_mem data db k hk⟩

theorem loadPorts_all_or_nothing_witness :
    sampleEnv.osOpen "missing.json" = .error "open missing.json: no such file or directory" ∧
      LoadPorts sampleEnv sampleDb "missing.json"
        = (sampleDb, some "open missing.json: no such file or directory") ∧
      sampleEnv.osOpen "broken.json" = .ok "broken" ∧
      LoadPorts sampleEnv sampleDb "broken.json"
        = (sampleDb, some "json: cannot unmarshal number into Go value of type main.Port") ∧
      (LoadPorts sampleEnv NewDatabase "two.json").2 = none ∧
      (LoadPorts sampleEnv NewDatabase "two.json").1.GetPort "AEAJM" = (ajman, true) ∧
      (LoadPorts sampleEnv NewDatabase "two.json").1.GetPort "AEAUH" = (abuDhabi, true) ∧
      (LoadPorts sampleEnv NewDatabase "two.json").1.GetPort "UNKNOWN" = (Port.zero, false) := by
  refine ⟨rfl,
    (loadPorts_all_or_nothing sampleEnv sampleDb "missing.json").1 _ rfl,
    rfl,
    (loadPorts_all_or_nothing sampleEnv sampleDb "broken.json").2.1 "broken" _ _ rfl rfl,
    rfl, ?_⟩
  obtain ⟨file, data, ho, hd, _, hexact, hframe⟩ :=
    (loadPorts_all_or_nothing sampleEnv NewDatabase "two.json").2.2.2 rfl
  have hfile : file = "two" := by
    have h : (Except.ok "two" : Except GoError File) = .ok file := ho
    injection h with h
    exact h.symm
  subst hfile
  have hdata : data = twoPorts := by
    have h : ((twoPorts, none) : PortMap × Option GoError) = (data, none) := hd
    exact (congrArg Prod.fst h).symm
  subst hdata
  exact ⟨hexact (by decide) "AEAJM" ajman (by decide),
    hexact (by decide) "AEAUH" abuDhabi (by decide),
    hframe "UNKNOWN" (by decide)⟩

/-- C6, as the claim states it, does not hold: there is no source whose decoding
fails and that leaves a key in a previously empty store. -/
theorem loadPorts_not_incremental :
    ¬ ∃ (env : Env) (filename : String) (file : File) (data : PortMap) (err : GoError)
        (k : String),
        env.osOpen filename = .ok file ∧ env.jsonDecode file = (data, some err) ∧
          ((LoadPorts env NewDatabase filename).1.GetPort k).2 = true := by
  rintro ⟨env, filename, file, data, err, k, ho, hd, hk⟩
  rw [loadPorts_of_decode_error env NewDatabase filename file data err ho hd] at hk
  simp [NewDatabase, Database.GetPort, PortMap.index] at hk

/-- C6, amended: `LoadPorts` decodes the whole source before the first `Upsert`.
When decoding fails, also after the decoder has filled some entries of `data`,
the call returns the error and stores none of them: the store is the one before
the call, and on a previously empty store `GetPort` returns the zero `Port` and
`false` for every key. -/
theorem loadPorts_decode_error_stores_nothing (env : Env) (db : Database) (filename : String)
    (file : File) (data : PortMap) (err : GoError) (ho : env.osOpen filename = .ok file)
    (hd : env.jsonDecode file = (data, some err)) :
    LoadPorts env db filename = (db, some err) ∧
      ∀ k, (LoadPorts env NewDatabase filename).1.GetPort k = (Port.zero, false) := by
  refine ⟨loadPorts_of_decode_error env db filename file data err ho hd, fun k => ?_⟩
  rw [loadPorts_of_decode_error env NewDatabase filename file data err ho hd]
  rfl

theorem loadPorts_decode_error_stores_nothing_witness :
    sampleEnv.osOpen "broken.json" = .ok "broken" ∧
      sampleEnv.jsonDecode "broken" = ([("AEAJM", ajman), ("AEAUH", Port.zero)],
        some "json: cannot unmarshal number into Go value of type main.Port") ∧
      (LoadPorts sampleEnv NewDatabase "broken.json").1.GetPort "AEAJM" = (Port.zero, false) :=
  ⟨rfl, rfl,
    (loadPorts_decode_error_stores_nothing sampleEnv NewDatabase "broken.json" "broken"
      _ _ rfl rfl).2 "AEAJM"⟩

/-! ## The lookup handler -/

/-- C7, as the claim states it, does not hold for every store: for a stored
record that the JSON encoder rejects, the key is found and the handler, which
discards the error of `Encode`, answers with status 200 and an empty body, not
with a JSON serialization of the record. -/
theorem getPortHandler_found_without_body :
    nanDb.GetPort "XXNAN" = (nanPort, true) ∧
      finiteOnly nanPort = .error "json: unsupported value: NaN" ∧
      (getPortHandler finiteOnly detectText nanDb "XXNAN").2.status = 200 ∧
      (getPortHandler finiteOnly detectText nanDb "XXNAN").2.body = "" :=
  ⟨by decide, rfl, by decide, by decide⟩

/-- C7, amended: for every store and request key, the handler of
`GET /ports/{id}` answers with status 200 exactly when `GetPort` reports the key
found, and the body is then the JSON encoding of the stored record and a newline
whenever the encoder returns one; it answers with status 404 exactly when
`GetPort` reports the key not found, and then the body is the plain text
`Port not found`; and the store after the call is the store before it. -/
theorem getPortHandler_found_or_404 (marshal : Port → Except GoError String)
    (detect : String → String) (db : Database) (key : String) :
    ((getPortHandler marshal detect db key).2.status = 200 ↔ (db.GetPort key).2 = true) ∧
      ((getPortHandler marshal detect db key).2.status = 404 ↔ (db.GetPort key).2 = false) ∧
      ((db.GetPort key).2 = true → ∀ s, marshal (db.GetPort key).1 = .ok s →
        (getPortHandler marshal detect db key).2.body = s ++ "\n" ∧
          (getPortHandler marshal detect db key).2.getHeader "Content-Type"
            = some (detect (s ++ "\n"))) ∧
      ((db.GetPort key).2 = false →
        (getPortHandler marshal detect db key).2.body = "Port not found\n" ∧
          (getPortHandler marshal detect db key).2.getHeader "Content-Type"
            = some "text/plain; charset=utf-8") ∧
      (getPortHandler marshal detect db key).1 = db := by
  rcases hg : db.GetPort key with ⟨port, _ | _⟩
  · rw [getPortHandler_of_absent marshal detect db key port hg, notFound_response]
    refine ⟨?_, ?_, ?_, ?_, rfl⟩
    · simp [ResponseWriter.status]
    · simp [ResponseWriter.status]
    · intro h
      simp at h
    · intro _
      exact ⟨rfl, by simp [ResponseWriter.getHeader]⟩
  · rw [getPortHandler_of_found marshal detect db key port hg]
    refine ⟨?_, ?_, ?_, ?_, rfl⟩
    · simp [status_jsonEncode]
    · simp [status_jsonEncode]
    · intro _ s hs
      exact body_jsonEncode marshal detect port s hs
    · intro h
      simp at h

theorem getPortHandler_found_or_404_witness :
    (sampleDb.GetPort "AEAJM").2 = true ∧
      (getPortHandler nameOnly detectText sampleDb "AEAJM").2.status = 200 ∧
      (getPortHandler nameOnly detectText sampleDb "AEAJM").2.body
        = "\x7b\"name\":\"Ajman\"\x7d" ++ "\n" ∧
      (sampleDb.GetPort "UNKNOWN").2 = false ∧
      (getPortHandler nameOnly detectText sampleDb "UNKNOWN").2.status = 404 ∧
      (getPortHandler nameOnly detectText sampleDb "UNKNOWN").2.body = "Port not found\n" :=
  have h1 := getPortHandler_found_or_404 nameOnly detectText sampleDb "AEAJM"
  have h2 := getPortHandler_found_or_404 nameOnly detectText sampleDb "UNKNOWN"
  ⟨by decide, h1.1.mpr (by decide), (h1.2.2.1 (by decide) _ rfl).1,
    by decide, h2.2.1.mpr (by decide), (h2.2.2.2.1 (by decide)).1⟩

/-! ## Order of the entries and frame -/

/-- C8: the store `LoadPorts` produces does not depend on the order in which the
entries of the decoded map are visited. For every initial store and every two
orderings of the same entries with pairwise distinct keys, upserting them in
either order, and so loading them by `LoadPorts`, gives stores that agree on
`GetPort` for every key; and `Upsert k1 r1` and `Upsert k2 r2` commute, up to
`GetPort`, when `k1 ≠ k2`. -/
theorem loadPorts_order_irrelevant (db : Database) (k : String) :
    (∀ d1 d2 : PortMap, d1.UniqueKeys → d1.Perm d2 →
        (upsertAll db d1).GetPort k = (upsertAll db d2).GetPort k) ∧
      (∀ (env1 env2 : Env) (f1 f2 : String) (file1 file2 : File) (d1 d2 : PortMap),
        env1.osOpen f1 = .ok file1 → env1.jsonDecode file1 = (d1, none) →
        env2.osOpen f2 = .ok file2 → env2.jsonDecode file2 = (d2, none) →
        d1.UniqueKeys → d1.Perm d2 →
        (LoadPorts env1 db f1).1.GetPort k = (LoadPorts env2 db f2).1.GetPort k) ∧
      (∀ (k1 k2 : String) (r1 r2 : Port), k1 ≠ k2 →
        ((db.Upsert k1 r1).Upsert k2 r2).GetPort k
          = ((db.Upsert k2 r2).Upsert k1 r1).GetPort k) := by
  refine ⟨fun d1 d2 hu hp => getPort_upsertAll_perm d1 d2 db k hu hp, ?_, ?_⟩
  · intro env1 env2 f1 f2 file1 file2 d1 d2 ho1 hd1 ho2 hd2 hu hp
    rw [loadPorts_of_decoded env1 db f1 file1 d1 ho1 hd1,
      loadPorts_of_decoded env2 db f2 file2 d2 ho2 hd2]
    exact getPort_upsertAll_perm d1 d2 db k hu hp
  · intro k1 k2 r1 r2 hne
    have hu : PortMap.UniqueKeys [(k1, r1), (k2, r2)] := by
      simp [PortMap.UniqueKeys, PortMap.keys, hne]
    exact getPort_upsertAll_perm [(k1, r1), (k2, r2)] [(k2, r2), (k1, r1)] db k hu
      (List.Perm.swap _ _ _)

theorem loadPorts_order_irrelevant_witness :
    twoPorts.UniqueKeys ∧ twoPorts.Perm twoPortsRev ∧
      (upsertAll sampleDb twoPorts).GetPort "AEAJM"
        = (upsertAll sampleDb twoPortsRev).GetPort "AEAJM" ∧
      "AEAJM" ≠ "AEAUH" ∧
      ((sampleDb.Upsert "AEAJM" abuDhabi).Upsert "AEAUH" ajman).GetPort "AEAJM"
        = ((sampleDb.Upsert "AEAUH" ajman).Upsert "AEAJM" abuDhabi).GetPort "AEAJM" :=
  have h := loadPorts_order_irrelevant sampleDb "AEAJM"
  ⟨by decide, List.Perm.swap _ _ _, h.1 twoPorts twoPortsRev (by decide) (List.Perm.swap _ _ _),
    by decide, h.2.2 "AEAJM" "AEAUH" abuDhabi ajman (by decide)⟩

/-- C10: `Upsert` changes only its own key: for `k ≠ k2`, `GetPort k2` returns
the same pair after `Upsert k r` as before. No `Upsert` and no `LoadPorts`,
successful or failed, removes a key: a key found before the operation is found
after it, and the store does not lose entries. -/
theorem upsert_frame_and_no_removal (db : Database) (k k2 : String) (r : Port) :
    (k ≠ k2 → (db.Upsert k r).GetPort k2 = db.GetPort k2) ∧
      ((db.GetPort k2).2 = true → ((db.Upsert k r).GetPort k2).2 = true) ∧
      (∀ (env : Env) (filename : String), (db.GetPort k2).2 = true →
        ((LoadPorts env db filename).1.GetPort k2).2 = true) ∧
      db.ports.length ≤ (db.Upsert k r).ports.length ∧
      (∀ (env : Env) (filename : String),
        db.ports.length ≤ (LoadPorts env db filename).1.ports.length) := by
  refine ⟨getPort_upsert_other db k k2 r, found_upsert db k k2 r, ?_,
    length_le_assign db.ports k r, ?_⟩
  · intro env filename h
    rcases loadPorts_store_cases env db filename with he | ⟨data, he⟩
    · rw [he]; exact h
    · rw [he]; exact found_upsertAll data db k2 h
  · intro env filename
    rcases loadPorts_store_cases env db filename with he | ⟨data, he⟩
    · rw [he]
    · rw [he]; exact length_le_upsertAll data db

theorem upsert_frame_and_no_removal_witness :
    "AEAUH" ≠ "AEAJM" ∧ (sampleDb.GetPort "AEAJM").2 = true ∧
      (sampleDb.Upsert "AEAUH" abuDhabi).GetPort "AEAJM" = (ajman, true) ∧
      ((LoadPorts sampleEnv sampleDb "two.json").1.GetPort "AEAJM").2 = true ∧
      ((LoadPorts sampleEnv sampleDb "broken.json").1.GetPort "AEAJM").2 = true :=
  have h := upsert_frame_and_no_removal sampleDb "AEAUH" "AEAJM" abuDhabi
  ⟨by decide, by decide, h.1 (by decide), h.2.2.1 sampleEnv "two.json" (by decide),
    h.2.2.1 sampleEnv "broken.json" (by decide)⟩

end Futurism
